import Mathlib

/-!
Shallow embedding of `internal/sender/mail.go` from the `sendingemail`
repository, together with theorems settling the specification claims.

The database table `dbo.tb_getEmailWiseSend` is modelled as a `List Row`.
External effects (the stored procedures `pd_wiseSendEmail` and
`pd_updategetemailwisesend`, and the SMTP `DialAndSend` call) are modelled
as oracle functions collected in an `Env`; `Send` and `ListMessages`
return, beside the Go function's result, a trace of the transport and
commit calls they issued and the table state they leave behind.
-/

namespace SendingEmail

/-- Errors returned by storage or transport, modelled as strings
(Go `error` values). -/
abbrev MailError := String

/-- One row of `dbo.tb_getEmailWiseSend`, with the columns selected by
`listMailMessages` (TWID, Txnno, Ruleid, txtdate, toaddress, bccaddress,
subjects, contents, rectype, senddatetime, comments).  `toaddress` and
`bccaddress` are nullable (`sql.NullString`), `senddatetime` is a nullable
timestamp (modelled as an opaque integer). -/
structure Row where
  twid : Int
  txnno : String
  ruleid : String
  txtdate : String
  toaddress : Option String
  bccaddress : Option String
  subjects : String
  contents : String
  rectype : String
  senddatetime : Option Int
  comments : String
deriving DecidableEq

/-- The Go `Message` struct produced by scanning a row. -/
structure Message where
  id : Int
  txnNo : String
  ruleId : String
  time : String
  subject : String
  content : String
  status : String
  comment : String
  toAddresses : List String
  bccAddresses : List String
  sentAt : Option Int
deriving DecidableEq

/-- Accumulator-passing core of Go's `strings.FieldsFunc`: walks the
characters, collecting maximal runs of characters on which `f` is false;
a run is flushed (non-empty only) whenever a delimiter is met or the
input ends. -/
def fieldsFuncAux (f : Char → Bool) : List Char → List Char → List String
  | [], acc => if acc.isEmpty then [] else [String.mk acc.reverse]
  | c :: cs, acc =>
    if f c then
      if acc.isEmpty then fieldsFuncAux f cs []
      else String.mk acc.reverse :: fieldsFuncAux f cs []
    else fieldsFuncAux f cs (c :: acc)

/-- Embedding of Go's `strings.FieldsFunc s f`: splits `s` at each run of
characters satisfying `f`, returning the non-empty pieces in order. -/
def fieldsFunc (f : Char → Bool) (s : String) : List String :=
  fieldsFuncAux f s.data []

/-- The delimiter predicate used in `listMailMessages`:
`func(r rune) bool \x7b return r == ';' \x7d`. -/
def semiDelim (c : Char) : Bool := c == ';'

/-- Address parsing as done in the scan loop of `listMailMessages`: a null
column leaves the list empty (`nil` in Go), a present column is split with
`strings.FieldsFunc` on `;`. -/
def parseAddresses : Option String → List String
  | none => []
  | some s => fieldsFunc semiDelim s

/-- Conversion of a scanned row into a `Message`, following the
`rows.Scan` call and the two `FieldsFunc` blocks of `listMailMessages`. -/
def scanRow (r : Row) : Message :=
  { id := r.twid
  , txnNo := r.txnno
  , ruleId := r.ruleid
  , time := r.txtdate
  , subject := r.subjects
  , content := r.contents
  , status := r.rectype
  , comment := r.comments
  , toAddresses := parseAddresses r.toaddress
  , bccAddresses := parseAddresses r.bccaddress
  , sentAt := r.senddatetime }

/-- The WHERE clause of the query the program actually issues:
`rectype = 'ADD' AND txtdate = today`.  The source also passes a second
condition, `NotEq` on `toaddress` against nil, to the same `Where` call,
but squirrel's `Where` ignores its variadic arguments whenever the first
argument is an `Sqlizer` (as the `Eq` map is), so no
`toaddress IS NOT NULL` condition reaches the generated SQL. -/
def eligible (today : String) (r : Row) : Bool :=
  r.rectype == "ADD" && r.txtdate == today

/-- The eligibility filter as the spec words it: status ADD, the current
day, and a non-null to-address column.  Kept separate from `eligible`
only to compare the spec's filter with the one the code issues. -/
def eligibleSpec (today : String) (r : Row) : Bool :=
  r.rectype == "ADD" && r.txtdate == today && r.toaddress.isSome

/-- The ORDER BY key: `TWID ASC`. -/
def twidLe (a b : Row) : Bool := decide (a.twid ≤ b.twid)

/-- Semantics of the SELECT issued by `listMailMessages`:
`SELECT TOP 100 ... FROM dbo.tb_getEmailWiseSend WHERE rectype = 'ADD'
AND txtdate = today ORDER BY TWID ASC` (see `eligible` for why the
intended null filter on `toaddress` is absent from the generated SQL). -/
def runQuery (today : String) (table : List Row) : List Row :=
  ((table.filter (eligible today)).mergeSort twidLe).take 100

/-- A constructed `mail.Message` (only the parts `Send` sets: From, To,
CC, Subject and the HTML body). -/
structure Email where
  fromAddr : String
  toAddrs : List String
  ccAddrs : List String
  subject : String
  body : String
deriving DecidableEq

/-- The per-message build step in `Send`'s loop: From is the configured
`MAIL_FROM`, To the parsed to-addresses, CC the parsed bcc-addresses,
Subject copied, and the content wrapped in the fixed HTML envelope. -/
def buildMessage (mailFrom : String) (msg : Message) : Email :=
  { fromAddr := mailFrom
  , toAddrs := msg.toAddresses
  , ccAddrs := msg.bccAddresses
  , subject := msg.subject
  , body := "<html><body style=\"font-family: Saysettha OT;\">" ++ msg.content
      ++ "</body></html>" }

/-- Oracles for the external collaborators of one cycle:
`gen` is the effect of `EXEC dbo.pd_wiseSendEmail` on the table (or a
storage error), `queryErr` a possible failure of the SELECT/scan,
`today` the value of `time.Now().Format("2006-01-02")`, `mailFrom` the
`MAIL_FROM` environment variable, `dial` the outcome of
`dialer.DialAndSend`, and `commit` the outcome of
`EXEC dbo.pd_updategetemailwisesend @txnno` for a given `Txnno`. -/
structure Env where
  gen : List Row → Except MailError (List Row)
  queryErr : Option MailError
  today : String
  mailFrom : String
  dial : List Email → Option MailError
  commit : String → Option MailError

/-- Embedding of `listMailMessages`: first executes the stored procedure
`pd_wiseSendEmail` (whose effect on the table is `env.gen`), then runs the
SELECT against the resulting table and scans every row.  Returns the
messages (or the first error) together with the table state left behind. -/
def listMailMessages (env : Env) (table : List Row) :
    Except MailError (List Message) × List Row :=
  match env.gen table with
  | .error e => (.error e, table)
  | .ok t' =>
    match env.queryErr with
    | some e => (.error e, t')
    | none => (.ok ((runQuery env.today t').map scanRow), t')

/-- Embedding of `Service.ListMessages`: delegates to `listMailMessages`
on the service's database handle (the logging is effect-free). -/
def ListMessages (env : Env) (table : List Row) :
    Except MailError (List Message) × List Row :=
  listMailMessages env table

/-- The commit loop at the end of `Send`: for each message, in order,
executes `pd_updategetemailwisesend` keyed by its `TxnNo`; on the first
error it returns that error without touching later messages.  The first
component is the trace of commit calls issued (the failing call
included), the second the returned error, `none` on full success. -/
def commitLoop (commit : String → Option MailError) :
    List Message → List String × Option MailError
  | [] => ([], none)
  | msg :: rest =>
    match commit msg.txnNo with
    | some e => ([msg.txnNo], some e)
    | none =>
      (msg.txnNo :: (commitLoop commit rest).1, (commitLoop commit rest).2)

/-- Result of one `Send` cycle: the returned error (if any), the batch
fetched by `listMailMessages` (empty on fetch error), the trace of
`DialAndSend` calls (each with its full batch of emails), and the trace
of commit calls issued (as `Txnno` keys, in order). -/
structure SendResult where
  error : Option MailError
  fetched : List Message
  dialCalls : List (List Email)
  commits : List String
deriving DecidableEq

/-- Embedding of `Service.Send` (the body under the mutex): fetch via
`listMailMessages`; on fetch error return it; on an empty batch return
success; otherwise build one email per message, call `DialAndSend` once
with the whole batch, and on transport success run the commit loop. -/
def Send (env : Env) (table : List Row) : SendResult × List Row :=
  let fetched := listMailMessages env table
  let t' := fetched.2
  match fetched.1 with
  | .error e =>
    ({ error := some e, fetched := [], dialCalls := [], commits := [] }, t')
  | .ok rawsMessages =>
    if rawsMessages.isEmpty then
      ({ error := none, fetched := rawsMessages, dialCalls := [], commits := [] }, t')
    else
      let messages := rawsMessages.map (buildMessage env.mailFrom)
      match env.dial messages with
      | some e =>
        ({ error := some e, fetched := rawsMessages, dialCalls := [messages],
           commits := [] }, t')
      | none =>
        let r := commitLoop env.commit rawsMessages
        ({ error := r.2, fetched := rawsMessages, dialCalls := [messages],
           commits := r.1 }, t')

/-! ### Properties of the address splitting -/

theorem mk_reverse_ne_empty (acc : List Char) (h : acc ≠ []) :
    String.mk acc.reverse ≠ "" := by
  intro hc
  have h2 : acc.reverse = [] := by
    have h3 := congrArg String.data hc
    simpa using h3
  exact h (List.reverse_eq_nil_iff.mp h2)

theorem fieldsFuncAux_ne_empty (f : Char → Bool) :
    ∀ (cs acc : List Char), ∀ t ∈ fieldsFuncAux f cs acc, t ≠ "" := by
  intro cs
  induction cs with
  | nil =>
    intro acc t ht
    simp only [fieldsFuncAux] at ht
    split at ht
    · simp at ht
    · next h =>
      simp only [List.mem_singleton] at ht
      subst ht
      exact mk_reverse_ne_empty acc (by simpa [List.isEmpty_iff] using h)
  | cons c cs ih =>
    intro acc t ht
    simp only [fieldsFuncAux] at ht
    split at ht
    · split at ht
      · exact ih [] t ht
      · next h =>
        rcases List.mem_cons.mp ht with h1 | h1
        · subst h1
          exact mk_reverse_ne_empty acc (by simpa [List.isEmpty_iff] using h)
        · exact ih [] t h1
    · exact ih (c :: acc) t ht

theorem fieldsFunc_ne_empty (f : Char → Bool) (s : String) :
    ∀ t ∈ fieldsFunc f s, t ≠ "" :=
  fieldsFuncAux_ne_empty f s.data []

theorem fieldsFuncAux_ne_nil (f : Char → Bool) :
    ∀ (cs acc : List Char), (acc ≠ [] ∨ ∃ c ∈ cs, f c = false) →
      fieldsFuncAux f cs acc ≠ [] := by
  intro cs
  induction cs with
  | nil =>
    intro acc h
    rcases h with h | ⟨c, hc, _⟩
    · simp only [fieldsFuncAux]
      rw [if_neg (by simpa [List.isEmpty_iff] using h)]
      simp
    · simp at hc
  | cons c cs ih =>
    intro acc h
    simp only [fieldsFuncAux]
    split
    · next hfc =>
      by_cases hacc : acc.isEmpty = true
      · rw [if_pos hacc]
        apply ih []
        have haccnil : acc = [] := List.isEmpty_iff.mp hacc
        rcases h with h | ⟨d, hd, hfd⟩
        · exact absurd haccnil h
        · rcases List.mem_cons.mp hd with h1 | h1
          · subst h1; simp [hfc] at hfd
          · exact Or.inr ⟨d, h1, hfd⟩
      · rw [if_neg hacc]
        simp
    · exact fun hnil => ih (c :: acc) (Or.inl (by simp)) hnil

theorem fieldsFuncAux_all_delim (f : Char → Bool) :
    ∀ cs : List Char, (∀ c ∈ cs, f c = true) → fieldsFuncAux f cs [] = [] := by
  intro cs
  induction cs with
  | nil => simp [fieldsFuncAux]
  | cons c cs ih =>
    intro h
    simp only [fieldsFuncAux]
    rw [if_pos (h c (List.mem_cons_self c cs))]
    simp only [List.isEmpty_nil, if_pos]
    exact ih fun d hd => h d (List.mem_cons_of_mem c hd)

theorem fieldsFunc_eq_nil_iff (f : Char → Bool) (s : String) :
    fieldsFunc f s = [] ↔ ∀ c ∈ s.data, f c = true := by
  constructor
  · intro h c hc
    by_contra hfc
    exact fieldsFuncAux_ne_nil f s.data []
      (Or.inr ⟨c, hc, by simpa using hfc⟩) h
  · exact fun h => fieldsFuncAux_all_delim f s.data h

/-! ### Properties of the commit loop and of `Send` -/

theorem commitLoop_none (commit : String → Option MailError) :
    ∀ ms : List Message, (commitLoop commit ms).2 = none →
      (commitLoop commit ms).1 = ms.map Message.txnNo ∧
      ∀ m ∈ ms, commit m.txnNo = none := by
  intro ms
  induction ms with
  | nil => intro _; exact ⟨rfl, by simp⟩
  | cons msg rest ih =>
    intro h
    simp only [commitLoop] at h ⊢
    cases hc : commit msg.txnNo with
    | some e => rw [hc] at h; simp at h
    | none =>
      rw [hc] at h
      dsimp only at h ⊢
      obtain ⟨h1, h2⟩ := ih h
      refine ⟨by simp [h1], ?_⟩
      intro m hm
      rcases List.mem_cons.mp hm with h3 | h3
      · subst h3; exact hc
      · exact h2 m h3

theorem commitLoop_some (commit : String → Option MailError) :
    ∀ (ms : List Message) (e : MailError), (commitLoop commit ms).2 = some e →
      ∃ i, ∃ hi : i < ms.length,
        commit (ms.get ⟨i, hi⟩).txnNo = some e ∧
        (∀ j (hj : j < ms.length), j < i → commit (ms.get ⟨j, hj⟩).txnNo = none) ∧
        (commitLoop commit ms).1 = (ms.map Message.txnNo).take (i + 1) := by
  intro ms
  induction ms with
  | nil => intro e h; simp [commitLoop] at h
  | cons msg rest ih =>
    intro e h
    simp only [commitLoop] at h ⊢
    cases hc : commit msg.txnNo with
    | some e2 =>
      rw [hc] at h
      dsimp only at h ⊢
      simp only [Option.some.injEq] at h
      refine ⟨0, by simp, ?_, ?_, ?_⟩
      · simpa [h] using hc
      · intro j _ hj0; omega
      · simp
    | none =>
      rw [hc] at h
      dsimp only at h ⊢
      obtain ⟨i, hi, h1, h2, h3⟩ := ih e h
      refine ⟨i + 1, Nat.succ_lt_succ hi, ?_, ?_, ?_⟩
      · simpa using h1
      · intro j hj hji
        cases j with
        | zero => exact hc
        | succ j2 =>
          exact h2 j2 (Nat.lt_of_succ_lt_succ hj) (Nat.lt_of_succ_lt_succ hji)
      · simp [h3]

/-- Reduction of `Send` when the fetch succeeded with a non-empty batch:
the cycle builds one email per message, dials once with the whole batch,
and on transport success runs the commit loop. -/
theorem Send_eq_of_fetch_ok (env : Env) (table : List Row) (ms : List Message)
    (hfetch : (listMailMessages env table).1 = .ok ms) (hne : ms ≠ []) :
    Send env table =
      (match env.dial (ms.map (buildMessage env.mailFrom)) with
       | some e =>
         { error := some e, fetched := ms,
           dialCalls := [ms.map (buildMessage env.mailFrom)], commits := [] }
       | none =>
         { error := (commitLoop env.commit ms).2, fetched := ms,
           dialCalls := [ms.map (buildMessage env.mailFrom)],
           commits := (commitLoop env.commit ms).1 },
       (listMailMessages env table).2) := by
  simp only [Send]
  rw [hfetch]
  simp only
  rw [if_neg (by simpa [List.isEmpty_iff] using hne)]
  cases env.dial (ms.map (buildMessage env.mailFrom)) <;> rfl

/-- Claim C5: parsing an address field splits on the semicolon delimiter
and returns no empty elements, a null input yields the empty list, and
"a@x;b@x;;c@x" parses to ["a@x", "b@x", "c@x"]. -/
theorem C5_parse_addresses :
    (∀ s : String, "" ∉ parseAddresses (some s)) ∧
    parseAddresses none = ([] : List String) ∧
    parseAddresses (some "a@x;b@x;;c@x") = ["a@x", "b@x", "c@x"] := by
  refine ⟨?_, rfl, by decide⟩
  intro s hmem
  exact fieldsFunc_ne_empty semiDelim s "" hmem rfl

/-! ### Concrete witness data -/

/-- A concrete eligible row used in witnesses. -/
def rowW : Row :=
  { twid := 1, txnno := "T1", ruleid := "R1", txtdate := "2025-01-02",
    toaddress := some "a@x;b@x", bccaddress := some "c@x",
    subjects := "Subj", contents := "Body", rectype := "ADD",
    senddatetime := none, comments := "ok" }

/-- A witness environment in which every external call succeeds and the
trigger procedure leaves the table unchanged. -/
def envOk : Env :=
  { gen := fun t => .ok t, queryErr := none, today := "2025-01-02",
    mailFrom := "noreply@x", dial := fun _ => none, commit := fun _ => none }

/-- A witness environment whose transport call fails. -/
def envDialFail : Env :=
  { envOk with dial := fun _ => some "dial error" }

theorem runQuery_singleton (today : String) (r : Row)
    (h : eligible today r = true) : runQuery today [r] = [r] := by
  unfold runQuery
  rw [show List.filter (eligible today) [r] = [r] by simp [h],
    List.mergeSort_singleton, List.take_of_length_le (by simp)]

theorem listMailMessages_envOk :
    listMailMessages envOk [rowW] = (.ok [scanRow rowW], [rowW]) := by
  simp only [listMailMessages, envOk]
  rw [runQuery_singleton _ _ (by decide)]
  rfl

theorem listMailMessages_envDialFail :
    listMailMessages envDialFail [rowW] = (.ok [scanRow rowW], [rowW]) := by
  simp only [listMailMessages, envDialFail, envOk]
  rw [runQuery_singleton _ _ (by decide)]
  rfl

/-! ### Claims about the dispatch cycle -/

/-- Claim C1: when the transport send succeeds, `Send` issues one status
commit per fetched message, in fetch order, each keyed by the message's
transaction number: if every commit succeeds the trace is exactly the
batch's transaction numbers and no error is returned; if some commit
fails, `Send` returns the first failing commit's error, the trace stops
at that call — all earlier (successful) commits stay performed — and no
later commit is attempted. -/
theorem C1_commit_per_message (env : Env) (table : List Row) (ms : List Message)
    (hfetch : (listMailMessages env table).1 = .ok ms)
    (hne : ms ≠ [])
    (hdial : env.dial (ms.map (buildMessage env.mailFrom)) = none) :
    ((Send env table).1.error = none →
      (Send env table).1.commits = ms.map Message.txnNo ∧
      ∀ m ∈ ms, env.commit m.txnNo = none) ∧
    (∀ e, (Send env table).1.error = some e →
      ∃ i, ∃ hi : i < ms.length,
        env.commit (ms.get ⟨i, hi⟩).txnNo = some e ∧
        (∀ j (hj : j < ms.length), j < i →
          env.commit (ms.get ⟨j, hj⟩).txnNo = none) ∧
        (Send env table).1.commits = (ms.map Message.txnNo).take (i + 1)) := by
  rw [Send_eq_of_fetch_ok env table ms hfetch hne, hdial]
  exact ⟨fun h0 => commitLoop_none env.commit ms h0,
    fun e h0 => commitLoop_some env.commit ms e h0⟩

/-- Witness for C1 at a one-row table whose commit calls all succeed. -/
theorem C1_commit_per_message_witness :
    ((Send envOk [rowW]).1.error = none →
      (Send envOk [rowW]).1.commits = ([scanRow rowW]).map Message.txnNo ∧
      ∀ m ∈ [scanRow rowW], envOk.commit m.txnNo = none) ∧
    (∀ e, (Send envOk [rowW]).1.error = some e →
      ∃ i, ∃ hi : i < ([scanRow rowW]).length,
        envOk.commit (([scanRow rowW]).get ⟨i, hi⟩).txnNo = some e ∧
        (∀ j (hj : j < ([scanRow rowW]).length), j < i →
          envOk.commit (([scanRow rowW]).get ⟨j, hj⟩).txnNo = none) ∧
        (Send envOk [rowW]).1.commits =
          (([scanRow rowW]).map Message.txnNo).take (i + 1)) :=
  C1_commit_per_message envOk [rowW] [scanRow rowW]
    (by rw [listMailMessages_envOk]) (by simp) rfl

/-- Claim C2: when the transport send fails, `Send` returns that error,
issues zero commit calls, and leaves the table exactly as the fetch left
it. -/
theorem C2_transport_failure (env : Env) (table : List Row) (ms : List Message)
    (e : MailError)
    (hfetch : (listMailMessages env table).1 = .ok ms)
    (hne : ms ≠ [])
    (hdial : env.dial (ms.map (buildMessage env.mailFrom)) = some e) :
    (Send env table).1.error = some e ∧
    (Send env table).1.commits = [] ∧
    (Send env table).2 = (listMailMessages env table).2 := by
  rw [Send_eq_of_fetch_ok env table ms hfetch hne, hdial]
  exact ⟨rfl, rfl, rfl⟩

/-- Witness for C2 at a one-row table whose transport call fails. -/
theorem C2_transport_failure_witness :
    (Send envDialFail [rowW]).1.error = some "dial error" ∧
    (Send envDialFail [rowW]).1.commits = [] ∧
    (Send envDialFail [rowW]).2 = (listMailMessages envDialFail [rowW]).2 :=
  C2_transport_failure envDialFail [rowW] [scanRow rowW] "dial error"
    (by rw [listMailMessages_envDialFail]) (by simp) rfl

/-- Claim C6: one email is built per fetched message, in fetch order (the
built batch is the elementwise image of the fetched batch, of the same
length), and each built email carries the configured From address, the
parsed to-addresses as To, the parsed bcc-addresses as a CC header, the
verbatim subject, and the content wrapped in the fixed HTML envelope. -/
theorem C6_email_builder (env : Env) (table : List Row) (ms : List Message)
    (hfetch : (listMailMessages env table).1 = .ok ms)
    (hne : ms ≠ []) :
    (Send env table).1.dialCalls = [ms.map (buildMessage env.mailFrom)] ∧
    (ms.map (buildMessage env.mailFrom)).length = ms.length ∧
    (∀ i (hi : i < ms.length),
      (ms.map (buildMessage env.mailFrom)).get ⟨i, by simpa using hi⟩ =
        buildMessage env.mailFrom (ms.get ⟨i, hi⟩)) ∧
    ∀ m ∈ ms,
      buildMessage env.mailFrom m =
        { fromAddr := env.mailFrom
        , toAddrs := m.toAddresses
        , ccAddrs := m.bccAddresses
        , subject := m.subject
        , body := "<html><body style=\"font-family: Saysettha OT;\">"
            ++ m.content ++ "</body></html>" } := by
  refine ⟨?_, by simp, ?_, fun m _ => rfl⟩
  · rw [Send_eq_of_fetch_ok env table ms hfetch hne]
    cases env.dial (ms.map (buildMessage env.mailFrom)) <;> rfl
  · intro i hi
    simp

/-- Witness for C6 at a one-row table. -/
theorem C6_email_builder_witness :
    (Send envOk [rowW]).1.dialCalls =
      [([scanRow rowW]).map (buildMessage envOk.mailFrom)] ∧
    (([scanRow rowW]).map (buildMessage envOk.mailFrom)).length =
      ([scanRow rowW]).length ∧
    (∀ i (hi : i < ([scanRow rowW]).length),
      (([scanRow rowW]).map (buildMessage envOk.mailFrom)).get
          ⟨i, by simpa using hi⟩ =
        buildMessage envOk.mailFrom (([scanRow rowW]).get ⟨i, hi⟩)) ∧
    ∀ m ∈ [scanRow rowW],
      buildMessage envOk.mailFrom m =
        { fromAddr := envOk.mailFrom
        , toAddrs := m.toAddresses
        , ccAddrs := m.bccAddresses
        , subject := m.subject
        , body := "<html><body style=\"font-family: Saysettha OT;\">"
            ++ m.content ++ "</body></html>" } :=
  C6_email_builder envOk [rowW] [scanRow rowW]
    (by rw [listMailMessages_envOk]) (by simp)

/-- Claim C7: an empty fetched batch makes `Send` return success with no
transport call and no commit call. -/
theorem C7_empty_batch (env : Env) (table : List Row)
    (hfetch : (listMailMessages env table).1 = .ok []) :
    (Send env table).1.error = none ∧
    (Send env table).1.dialCalls = [] ∧
    (Send env table).1.commits = [] := by
  simp only [Send]
  rw [hfetch]
  exact ⟨rfl, rfl, rfl⟩

/-- Witness for C7 on an empty table. -/
theorem C7_empty_batch_witness :
    (Send envOk []).1.error = none ∧
    (Send envOk []).1.dialCalls = [] ∧
    (Send envOk []).1.commits = [] :=
  C7_empty_batch envOk [] (by simp [listMailMessages, envOk, runQuery])

/-- Claim C10: `ListMessages` and the fetch step of `Send` are the same
underlying function (`listMailMessages`), so the batch `ListMessages`
returns is exactly the batch a dispatch cycle fetches and processes. -/
theorem C10_shared_fetch (env : Env) (table : List Row) (ms : List Message)
    (h : (ListMessages env table).1 = .ok ms) :
    ListMessages env table = listMailMessages env table ∧
    (Send env table).1.fetched = ms := by
  refine ⟨rfl, ?_⟩
  have h2 : (listMailMessages env table).1 = .ok ms := h
  simp only [Send]
  rw [h2]
  simp only
  by_cases he : ms.isEmpty = true
  · rw [if_pos he]
  · rw [if_neg he]
    cases env.dial (ms.map (buildMessage env.mailFrom)) <;> rfl

/-- Witness for C10 at a one-row table. -/
theorem C10_shared_fetch_witness :
    ListMessages envOk [rowW] = listMailMessages envOk [rowW] ∧
    (Send envOk [rowW]).1.fetched = [scanRow rowW] :=
  C10_shared_fetch envOk [rowW] [scanRow rowW]
    (by simp only [ListMessages]; rw [listMailMessages_envOk])

/-! ### Claims about the fetch query -/

theorem twidLe_trans : ∀ a b c : Row,
    twidLe a b = true → twidLe b c = true → twidLe a c = true := by
  intro a b c hab hbc
  simp only [twidLe, decide_eq_true_eq] at *
  omega

theorem twidLe_total : ∀ a b : Row, (twidLe a b || twidLe b a) = true := by
  intro a b
  simp only [twidLe, Bool.or_eq_true, decide_eq_true_eq]
  omega

theorem runQuery_length (today : String) (table : List Row) :
    (runQuery today table).length ≤ 100 := by
  simp only [runQuery, List.length_take]
  omega

theorem runQuery_mem (today : String) (table : List Row) :
    ∀ r ∈ runQuery today table, r ∈ table ∧ eligible today r = true := by
  intro r hr
  have h1 : r ∈ (table.filter (eligible today)).mergeSort twidLe :=
    List.take_subset _ _ hr
  have h2 : r ∈ table.filter (eligible today) :=
    (List.mergeSort_perm _ _).mem_iff.mp h1
  exact List.mem_filter.mp h2

theorem runQuery_sorted (today : String) (table : List Row) :
    (runQuery today table).Pairwise (fun a b => a.twid ≤ b.twid) := by
  have hs := List.sorted_mergeSort twidLe_trans twidLe_total
    (table.filter (eligible today))
  have hs2 : ((table.filter (eligible today)).mergeSort twidLe).Pairwise
      (fun a b => a.twid ≤ b.twid) :=
    hs.imp fun h => by simpa [twidLe] using h
  exact List.Pairwise.sublist (List.take_sublist _ _) hs2

theorem runQuery_complete (today : String) (table : List Row)
    (h : (table.filter (eligible today)).length ≤ 100) :
    (runQuery today table).Perm (table.filter (eligible today)) := by
  unfold runQuery
  rw [List.take_of_length_le (by rw [List.length_mergeSort]; exact h)]
  exact List.mergeSort_perm _ _

/-- Dissection of a successful fetch: the generation step succeeded, the
query succeeded, and the batch is the scanned image of the query result
on the post-generation table. -/
theorem listMailMessages_ok_iff (env : Env) (table : List Row)
    (ms : List Message) (hfetch : (listMailMessages env table).1 = .ok ms) :
    ∃ t', env.gen table = .ok t' ∧ env.queryErr = none ∧
      ms = (runQuery env.today t').map scanRow := by
  unfold listMailMessages at hfetch
  cases hg : env.gen table with
  | error e => rw [hg] at hfetch; simp at hfetch
  | ok t' =>
    rw [hg] at hfetch
    cases hq : env.queryErr with
    | some e => rw [hq] at hfetch; simp at hfetch
    | none =>
      rw [hq] at hfetch
      dsimp only at hfetch
      rw [Except.ok.injEq] at hfetch
      exact ⟨t', rfl, rfl, hfetch.symm⟩

/-- A row matching status ADD and the processing day whose to-address
column is NULL: the spec's filter excludes it, the issued query does
not. -/
def rowNullTo : Row :=
  { twid := 3, txnno := "T3", ruleid := "R3", txtdate := "2025-01-02",
    toaddress := none, bccaddress := none,
    subjects := "S3", contents := "B3", rectype := "ADD",
    senddatetime := none, comments := "" }

/-- Claim C4, evaluated at the failing input: the claim requires the
fetch to return exactly the rows with status ADD, today's date and a
non-null to-address column, but the condition the code builds for the
null filter is silently dropped by squirrel's `Where`, so the issued
query filters on status and date alone.  A row with a NULL to-address
column and matching status and date is therefore fetched — it satisfies
the issued filter `eligible` but not the spec's filter `eligibleSpec` —
and it scans to a message with an empty to-address list. -/
theorem C4_null_toaddress_fetched :
    (listMailMessages envOk [rowNullTo]).1 = .ok [scanRow rowNullTo] ∧
    rowNullTo.toaddress = none ∧
    eligible envOk.today rowNullTo = true ∧
    eligibleSpec envOk.today rowNullTo = false ∧
    (scanRow rowNullTo).toAddresses = [] := by
  refine ⟨?_, rfl, by decide, by decide, rfl⟩
  have h : listMailMessages envOk [rowNullTo] =
      (.ok [scanRow rowNullTo], [rowNullTo]) := by
    simp only [listMailMessages, envOk]
    rw [runQuery_singleton _ _ (by decide)]
    rfl
  rw [h]

/-! ### Claim C8: empty to-address lists -/

/-- A row that passes the eligibility filter although its to-address
column holds the empty string (present but empty). -/
def rowEmptyTo : Row :=
  { twid := 2, txnno := "T2", ruleid := "R2", txtdate := "2025-01-02",
    toaddress := some "", bccaddress := none,
    subjects := "S2", contents := "B2", rectype := "ADD",
    senddatetime := none, comments := "" }

/-- Counterexample to C8 as stated: a fetched message whose raw
to-address column is present (the empty string) still yields an empty
to-address list, so "empty only if the raw column was absent" fails. -/
theorem C8_counterexample :
    (listMailMessages envOk [rowEmptyTo]).1 = .ok [scanRow rowEmptyTo] ∧
    rowEmptyTo.toaddress = some "" ∧
    rowEmptyTo.toaddress ≠ none ∧
    (scanRow rowEmptyTo).toAddresses = [] := by
  refine ⟨?_, rfl, by simp [rowEmptyTo], by decide⟩
  have h : listMailMessages envOk [rowEmptyTo] =
      (.ok [scanRow rowEmptyTo], [rowEmptyTo]) := by
    simp only [listMailMessages, envOk]
    rw [runQuery_singleton _ _ (by decide)]
    rfl
  rw [h]

/-- Claim C8 (amended): for every fetched message, the to-address list
is the parser's output on the row's raw column: when the raw column is
absent the list is empty, and when it is present the list is empty
exactly when the raw string has no character other than the ';'
delimiter — so a present but empty (or all-delimiter) raw column also
yields an empty list, and the list is non-empty whenever the raw string
holds any other character. -/
theorem C8_amended_to_addresses (env : Env) (table : List Row)
    (ms : List Message) (hfetch : (listMailMessages env table).1 = .ok ms) :
    ∀ m ∈ ms, ∃ r, m = scanRow r ∧
      (r.toaddress = none → m.toAddresses = []) ∧
      ∀ s, r.toaddress = some s →
        (m.toAddresses = [] ↔ ∀ c ∈ s.data, c = ';') := by
  intro m hm
  obtain ⟨t', _, _, hms⟩ := listMailMessages_ok_iff env table ms hfetch
  subst hms
  obtain ⟨r, hr, hrm⟩ := List.mem_map.mp hm
  refine ⟨r, hrm.symm, ?_, ?_⟩
  · intro hnone
    subst hrm
    show parseAddresses r.toaddress = []
    rw [hnone]
    rfl
  · intro s hs
    subst hrm
    show parseAddresses r.toaddress = [] ↔ _
    rw [hs]
    show fieldsFunc semiDelim s = [] ↔ _
    rw [fieldsFunc_eq_nil_iff]
    constructor
    · intro h c hc
      have h2 := h c hc
      simpa [semiDelim] using h2
    · intro h c hc
      simp [semiDelim, h c hc]

/-- Witness for the amended C8 at a one-row table and its one message. -/
theorem C8_amended_to_addresses_witness :
    ∃ r, scanRow rowW = scanRow r ∧
      (r.toaddress = none → (scanRow rowW).toAddresses = []) ∧
      ∀ s, r.toaddress = some s →
        ((scanRow rowW).toAddresses = [] ↔ ∀ c ∈ s.data, c = ';') :=
  C8_amended_to_addresses envOk [rowW] [scanRow rowW]
    (by rw [listMailMessages_envOk]) (scanRow rowW) (by simp)

/-! ### Claim C9: the read-only nature of ListMessages -/

/-- A witness environment whose trigger procedure inserts `rowW` into the
table, as the generation step is expected to materialize eligible rows. -/
def envGenInsert : Env :=
  { envOk with gen := fun t => .ok (rowW :: t) }

/-- Counterexample to C9 as stated: `ListMessages` runs the stored
generation procedure (`pd_wiseSendEmail`) before its read, so an
invocation can change the stored state — here it grows the table from
empty to one row. -/
theorem C9_counterexample :
    (ListMessages envGenInsert []).2 = [rowW] ∧ [rowW] ≠ ([] : List Row) :=
  ⟨rfl, by simp⟩

/-- Claim C9 (amended): `ListMessages` is read-only except for the
storage-side generation step it triggers: the table it leaves behind is
exactly that step's output (unchanged when the step fails, and unchanged
whenever the step itself leaves the table unchanged); it issues no
status-commit and no transport call. -/
theorem C9_amended_frame (env : Env) (table : List Row) :
    (ListMessages env table).2 =
      (match env.gen table with
       | .ok t' => t'
       | .error _ => table) := by
  simp only [ListMessages, listMailMessages]
  cases env.gen table with
  | error e => rfl
  | ok t' => cases env.queryErr <;> rfl

end SendingEmail
